import Mathlib

/-!
# Verification of the firefly-jar flash-unit state machine

A shallow embedding of `src/firefly.hpp` (the color model `compute_rgb` /
`p_pyralis_brightness` and the `Firefly` coroutine class) together with the
surrounding scheduling and output-surface contract, and proofs of the
spec's testable properties against it.

Conventions of the embedding:
* C `int` fields become `ℤ`; C truncation of a floating-point product to
  `int` is modelled over `ℚ` by `ctrunc` (floor for non-negative values,
  as in C's round-toward-zero); the float literals `0.788`, `1.0`, `0.0`
  are taken at their decimal values.
* The `ESP8266TrueRandom.random(min, max)` source is a parameter
  `rand : ℕ → ℤ → ℤ → ℤ` indexed by a call counter carried in the state
  (`rngCount`), so "exactly three calls per re-roll" is visible as the
  counter advancing by three.
* One `runStep` is one non-suspended execution of the `COROUTINE_LOOP`
  body: advance brightness, conditionally write/flush, phase-transition
  check, then the trailing delay(s).  `COROUTINE_DELAY` /
  `COROUTINE_DELAY_MICROS` requests are recorded in the step's effect.
* Suspension (`AceRoutine`'s delay handling) is modelled by `activate`:
  a call before the resume deadline is a no-op, otherwise the body runs
  and the deadline moves past all requested delays.
-/

namespace FireflyJar

/-- C round-toward-zero conversion of a rational to an integer, as in
`int r = brightness * r_mult;`. -/
def ctrunc (q : ℚ) : ℤ := if 0 ≤ q then ⌊q⌋ else ⌈q⌉

/-- C conversion of a (possibly negative) `int` to `uint32_t`: value mod 2³². -/
def u32 (n : ℤ) : ℕ := (n % (2 : ℤ) ^ 32).toNat

/-- `compute_rgb` from `src/firefly.hpp`: each channel is the brightness
(a `uint8_t` value) times its multiplier, truncated to `int`, then packed
`((uint32_t)r << 16) | ((uint32_t)g << 8) | b`. -/
def compute_rgb (brightness : ℕ) (r_mult g_mult b_mult : ℚ) : ℕ :=
  let r : ℤ := ctrunc ((brightness : ℚ) * r_mult)
  let g : ℤ := ctrunc ((brightness : ℚ) * g_mult)
  let b : ℤ := ctrunc ((brightness : ℚ) * b_mult)
  ((u32 r <<< 16) % 2 ^ 32) ||| ((u32 g <<< 8) % 2 ^ 32) ||| u32 b

/-- `p_pyralis_brightness` from `src/firefly.hpp`: the 562 nm preset,
multipliers (0.788, 1.0, 0.0). -/
def p_pyralis_brightness (brightness : ℕ) : ℕ :=
  compute_rgb brightness 0.788 1.0 0.0

/-- The mutable fields of a `Firefly` object, plus `rngCount`, the number of
calls made so far to the random source (used to index the `rand` stream). -/
structure FireflyState where
  number : ℕ
  brightness : ℤ
  rising : Bool
  dark_delay : ℤ
  rising_delay : ℤ
  falling_delay : ℤ
  rngCount : ℕ
deriving DecidableEq

/-- The `Firefly` constructor: sets `number`, `brightness := 0`,
`rising := true`.  It does NOT initialize the three delay fields; the
arguments `d r f` stand for whatever indeterminate values those fields
hold at construction. -/
def mkFirefly (number : ℕ) (d r f : ℤ) : FireflyState :=
  { number := number, brightness := 0, rising := true,
    dark_delay := d, rising_delay := r, falling_delay := f, rngCount := 0 }

/-- `Firefly::roll`: three fresh draws from the random source, in the
order dark, rising, falling, with the ranges of the source code. -/
def roll (rand : ℕ → ℤ → ℤ → ℤ) (s : FireflyState) : FireflyState :=
  { s with
    dark_delay := rand s.rngCount 4000 7000
    rising_delay := rand (s.rngCount + 1) 1000 1300
    falling_delay := rand (s.rngCount + 2) 1500 2000
    rngCount := s.rngCount + 3 }

/-- A suspension request: `COROUTINE_DELAY` (milliseconds) or
`COROUTINE_DELAY_MICROS` (microseconds). -/
inductive Delay where
  | ms (n : ℤ)
  | micros (n : ℤ)
deriving DecidableEq

/-- The observable effects of one non-suspended step: the optional
`setPixelColor` write (slot, packed color), whether `show()` was requested,
whether `roll()` ran, and the delay requests in order. -/
structure StepEff where
  write : Option (ℕ × ℕ)
  flush : Bool
  rolled : Bool
  delays : List Delay
deriving DecidableEq

/-- One non-suspended execution of the `COROUTINE_LOOP` body of
`Firefly::runCoroutine`, in source order:
1. increment brightness if rising, else decrement;
2. if `dark_delay % 2 == 0`, write `p_pyralis_brightness(brightness)`
   (brightness narrowed to `uint8_t`) to slot `number` and request `show()`;
3. if brightness is 255 and rising, flip to falling; else if brightness is
   0 and falling, flip to rising, `roll()`, and request
   `COROUTINE_DELAY(dark_delay)`;
4. request `COROUTINE_DELAY_MICROS` of `rising_delay` if now rising, else
   of `falling_delay`. -/
def runStep (rand : ℕ → ℤ → ℤ → ℤ) (s : FireflyState) : FireflyState × StepEff :=
  let s1 : FireflyState :=
    if s.rising then { s with brightness := s.brightness + 1 }
    else { s with brightness := s.brightness - 1 }
  let doShow : Bool := s1.dark_delay % 2 == 0
  let write : Option (ℕ × ℕ) :=
    if doShow then some (s1.number, p_pyralis_brightness (s1.brightness % 256).toNat)
    else none
  let branch : FireflyState × Bool × List Delay :=
    if s1.brightness == 255 && s1.rising then
      ({ s1 with rising := false }, false, [])
    else if s1.brightness == 0 && s1.rising == false then
      let s2 := roll rand { s1 with rising := true }
      (s2, true, [Delay.ms s2.dark_delay])
    else (s1, false, [])
  let s2 := branch.1
  let phase : Delay :=
    if s2.rising then Delay.micros s2.rising_delay else Delay.micros s2.falling_delay
  (s2, { write := write, flush := doShow, rolled := branch.2.1,
         delays := branch.2.2 ++ [phase] })

/-- The state after one non-suspended step. -/
def stepS (rand : ℕ → ℤ → ℤ → ℤ) (s : FireflyState) : FireflyState :=
  (runStep rand s).1

/-- The state after `n` non-suspended steps. -/
def stepN (rand : ℕ → ℤ → ℤ → ℤ) (n : ℕ) (s : FireflyState) : FireflyState :=
  (stepS rand)^[n] s

/-- Duration of a delay request in microseconds. -/
def delayMicros : Delay → ℤ
  | .ms n => 1000 * n
  | .micros n => n

/-- Total requested suspension of a step, in microseconds (the requests of
one step run back to back: the coroutine only reaches the next loop
iteration after all of them have elapsed). -/
def totalMicros (ds : List Delay) : ℤ := (ds.map delayMicros).sum

/-- A flash unit together with its scheduling state: the earliest time
(microseconds) at which its next step may run. -/
structure UnitState where
  fsm : FireflyState
  resumeAt : ℤ
deriving DecidableEq

/-- The effect of an activation that does nothing. -/
def noEff : StepEff := { write := none, flush := false, rolled := false, delays := [] }

/-- One call of `runCoroutine` under the AceRoutine scheduler: before the
resume deadline it is a no-op; otherwise the loop body runs once and the
deadline moves past all delays the body requested. -/
def activate (rand : ℕ → ℤ → ℤ → ℤ) (now : ℤ) (u : UnitState) : UnitState × StepEff :=
  if now < u.resumeAt then (u, noEff)
  else
    let r := runStep rand u.fsm
    ({ fsm := r.1, resumeAt := now + totalMicros r.2.delays }, r.2)

/-- Modelled from the spec: the output surface (the `Adafruit_NeoPixel`
strip, an external collaborator specified only at its interface) is one
buffer of per-slot colors plus the colors last pushed to hardware. -/
structure Surface where
  buffer : ℕ → ℕ
  hardware : ℕ → ℕ

/-- Modelled from the spec: `setSlotColor(index, packedColor)`
(`Adafruit_NeoPixel::setPixelColor`) updates exactly one slot of the
shared buffer. -/
def setSlotColor (srf : Surface) (i c : ℕ) : Surface :=
  { srf with buffer := fun j => if j = i then c else srf.buffer j }

/-- Modelled from the spec: `flush()` (`Adafruit_NeoPixel::show`) pushes
the entire current buffer to hardware, not just the touched slot. -/
def flushSurface (srf : Surface) : Surface :=
  { srf with hardware := srf.buffer }

/-- Apply a step's output effects to the surface: the write (if any),
then the flush (if requested). -/
def applyEff (srf : Surface) (e : StepEff) : Surface :=
  let srf1 := match e.write with
    | some ic => setSlotColor srf ic.1 ic.2
    | none => srf
  if e.flush then flushSurface srf1 else srf1

/-! ### Helper lemmas: how one step acts in each phase -/

theorem stepN_succ (rand : ℕ → ℤ → ℤ → ℤ) (n : ℕ) (s : FireflyState) :
    stepN rand (n + 1) s = stepS rand (stepN rand n s) :=
  Function.iterate_succ_apply' _ _ _

theorem stepN_zero (rand : ℕ → ℤ → ℤ → ℤ) (s : FireflyState) :
    stepN rand 0 s = s := rfl

theorem stepS_rising_mid (rand : ℕ → ℤ → ℤ → ℤ) (s : FireflyState)
    (h : s.rising = true) (h2 : s.brightness + 1 ≠ 255) :
    stepS rand s = { s with brightness := s.brightness + 1 } := by
  have hb : ((s.brightness + 1 : ℤ) == 255) = false := beq_eq_false_iff_ne.mpr h2
  simp [stepS, runStep, h, hb]

theorem stepS_rising_top (rand : ℕ → ℤ → ℤ → ℤ) (s : FireflyState)
    (h : s.rising = true) (h2 : s.brightness + 1 = 255) :
    stepS rand s = { s with brightness := 255, rising := false } := by
  simp [stepS, runStep, h, h2]

theorem stepS_falling_mid (rand : ℕ → ℤ → ℤ → ℤ) (s : FireflyState)
    (h : s.rising = false) (h2 : s.brightness - 1 ≠ 0) :
    stepS rand s = { s with brightness := s.brightness - 1 } := by
  have hb : ((s.brightness - 1 : ℤ) == 0) = false := beq_eq_false_iff_ne.mpr h2
  simp [stepS, runStep, h, hb]

theorem stepS_falling_bottom (rand : ℕ → ℤ → ℤ → ℤ) (s : FireflyState)
    (h : s.rising = false) (h2 : s.brightness - 1 = 0) :
    stepS rand s = roll rand { s with brightness := 0, rising := true } := by
  simp [stepS, runStep, h, h2]

/-! ### The first rise, fall, and re-roll from a freshly constructed unit -/

theorem rise_phase (rand : ℕ → ℤ → ℤ → ℤ) (i : ℕ) (d r f : ℤ) :
    ∀ k, k ≤ 255 →
      stepN rand k (mkFirefly i d r f) =
        { number := i, brightness := (k : ℤ), rising := decide (k < 255),
          dark_delay := d, rising_delay := r, falling_delay := f, rngCount := 0 } := by
  intro k
  induction k with
  | zero => intro _; simp [stepN_zero, mkFirefly]
  | succ k ih =>
    intro hk
    have hk' : k < 255 := by omega
    rw [stepN_succ, ih (Nat.le_of_succ_le hk)]
    by_cases h255 : k + 1 = 255
    · rw [stepS_rising_top _ _ (by simp [hk']) (by push_cast; omega)]
      simp [h255]
    · rw [stepS_rising_mid _ _ (by simp [hk']) (by push_cast; omega)]
      have h1 : k + 1 < 255 := by omega
      simp [h1, hk']

theorem fall_phase (rand : ℕ → ℤ → ℤ → ℤ) (i : ℕ) (d r f : ℤ) :
    ∀ j, j ≤ 254 →
      stepN rand (255 + j) (mkFirefly i d r f) =
        { number := i, brightness := 255 - (j : ℤ), rising := false,
          dark_delay := d, rising_delay := r, falling_delay := f, rngCount := 0 } := by
  intro j
  induction j with
  | zero =>
    intro _
    rw [rise_phase rand i d r f 255 le_rfl]
    simp
  | succ j ih =>
    intro hj
    have hj' : j ≤ 254 := by omega
    rw [show 255 + (j + 1) = (255 + j) + 1 by ring, stepN_succ, ih hj']
    rw [stepS_falling_mid _ _ rfl (by push_cast; omega)]
    simp
    ring

theorem cycle_closes (rand : ℕ → ℤ → ℤ → ℤ) (i : ℕ) (d r f : ℤ) :
    stepN rand 510 (mkFirefly i d r f) =
      { number := i, brightness := 0, rising := true,
        dark_delay := rand 0 4000 7000, rising_delay := rand 1 1000 1300,
        falling_delay := rand 2 1500 2000, rngCount := 3 } := by
  rw [show (510 : ℕ) = (255 + 254) + 1 by norm_num, stepN_succ,
    fall_phase rand i d r f 254 le_rfl]
  rw [stepS_falling_bottom _ _ rfl (by norm_num)]
  simp [roll]

/-! ### Brightness range invariant -/

/-- The inductive invariant of the step relation: a rising unit sits in
[0,254], a falling unit in [1,255]. -/
def Inv (s : FireflyState) : Prop :=
  (s.rising = true ∧ 0 ≤ s.brightness ∧ s.brightness ≤ 254) ∨
  (s.rising = false ∧ 1 ≤ s.brightness ∧ s.brightness ≤ 255)

theorem inv_mkFirefly (i : ℕ) (d r f : ℤ) : Inv (mkFirefly i d r f) := by
  left; exact ⟨rfl, by norm_num [mkFirefly], by norm_num [mkFirefly]⟩

theorem inv_step (rand : ℕ → ℤ → ℤ → ℤ) (s : FireflyState) (h : Inv s) :
    Inv (stepS rand s) := by
  rcases h with ⟨hr, h0, h1⟩ | ⟨hr, h0, h1⟩
  · by_cases hb : s.brightness + 1 = 255
    · rw [stepS_rising_top _ _ hr hb]
      right; exact ⟨rfl, by norm_num, by norm_num⟩
    · rw [stepS_rising_mid _ _ hr hb]
      left; exact ⟨hr, by simp; omega, by simp; omega⟩
  · by_cases hb : s.brightness - 1 = 0
    · rw [stepS_falling_bottom _ _ hr hb]
      left; exact ⟨rfl, by simp [roll], by simp [roll]⟩
    · rw [stepS_falling_mid _ _ hr hb]
      right; exact ⟨hr, by simp; omega, by simp; omega⟩

theorem inv_stepN (rand : ℕ → ℤ → ℤ → ℤ) (i : ℕ) (d r f : ℤ) (n : ℕ) :
    Inv (stepN rand n (mkFirefly i d r f)) := by
  induction n with
  | zero => exact inv_mkFirefly i d r f
  | succ n ih => rw [stepN_succ]; exact inv_step rand _ ih

/-- Transitions never modify brightness: the post-step brightness is
exactly the advanced (pre-transition-check) value. -/
theorem stepS_brightness (rand : ℕ → ℤ → ℤ → ℤ) (s : FireflyState) :
    (stepS rand s).brightness =
      if s.rising then s.brightness + 1 else s.brightness - 1 := by
  cases hr : s.rising
  · by_cases hb : s.brightness - 1 = 0
    · rw [stepS_falling_bottom _ _ hr hb]; simp [roll, hb]
    · rw [stepS_falling_mid _ _ hr hb]; simp
  · by_cases hb : s.brightness + 1 = 255
    · rw [stepS_rising_top _ _ hr hb]; simp [hb]
    · rw [stepS_rising_mid _ _ hr hb]; simp

/-- C1: for every flash unit constructed at brightness 0 with rising true,
after any number of activation steps the brightness field is in [0, 255];
moreover each step's post-state brightness equals the advanced value
checked by the transition logic, so the value never passes a boundary
before the transition check is evaluated. -/
theorem C1_brightness_invariant (rand : ℕ → ℤ → ℤ → ℤ) (i : ℕ) (d r f : ℤ) (n : ℕ) :
    (0 ≤ (stepN rand n (mkFirefly i d r f)).brightness ∧
      (stepN rand n (mkFirefly i d r f)).brightness ≤ 255) ∧
    (stepN rand (n + 1) (mkFirefly i d r f)).brightness =
      (if (stepN rand n (mkFirefly i d r f)).rising then
        (stepN rand n (mkFirefly i d r f)).brightness + 1
       else (stepN rand n (mkFirefly i d r f)).brightness - 1) := by
  constructor
  · rcases inv_stepN rand i d r f n with ⟨_, h0, h1⟩ | ⟨_, h0, h1⟩ <;>
      exact ⟨by omega, by omega⟩
  · rw [stepN_succ]
    exact stepS_brightness rand _

/-- C2: starting from brightness 0 in the rising phase, repeated
non-suspended stepping has brightness n and still rising for n < 255,
reaches brightness 255 (flipping to falling) at exactly step 255, falls
back with brightness 510 − n for 255 ≤ n ≤ 509, reaches brightness 0
(rising again) at exactly step 510, and the timing-parameter re-roll
(visible as the random-call counter) happens only at step 510, never at
any step 0..509. -/
theorem C2_cycle (rand : ℕ → ℤ → ℤ → ℤ) (i : ℕ) (d r f : ℤ) :
    (∀ n, n < 255 → (stepN rand n (mkFirefly i d r f)).brightness = (n : ℤ) ∧
      (stepN rand n (mkFirefly i d r f)).rising = true) ∧
    ((stepN rand 255 (mkFirefly i d r f)).brightness = 255 ∧
      (stepN rand 255 (mkFirefly i d r f)).rising = false) ∧
    (∀ n, 255 ≤ n → n ≤ 509 →
      (stepN rand n (mkFirefly i d r f)).brightness = 510 - (n : ℤ) ∧
      (stepN rand n (mkFirefly i d r f)).rising = false) ∧
    ((stepN rand 510 (mkFirefly i d r f)).brightness = 0 ∧
      (stepN rand 510 (mkFirefly i d r f)).rising = true) ∧
    (∀ n, n ≤ 509 → (stepN rand n (mkFirefly i d r f)).rngCount = 0) ∧
    (stepN rand 510 (mkFirefly i d r f)).rngCount = 3 := by
  refine ⟨?_, ?_, ?_, ?_, ?_, ?_⟩
  · intro n hn
    rw [rise_phase rand i d r f n (by omega)]
    simp [hn]
  · rw [rise_phase rand i d r f 255 le_rfl]; simp
  · intro n h255 h509
    have hn : n = 255 + (n - 255) := by omega
    rw [hn, fall_phase rand i d r f (n - 255) (by omega)]
    refine ⟨?_, rfl⟩
    show (255 : ℤ) - ((n - 255 : ℕ) : ℤ) = 510 - ((255 + (n - 255) : ℕ) : ℤ)
    omega
  · rw [cycle_closes]; exact ⟨rfl, rfl⟩
  · intro n hn
    rcases Nat.lt_or_ge n 256 with h | h
    · rw [rise_phase rand i d r f n (by omega)]
    · have hn' : n = 255 + (n - 255) := by omega
      rw [hn', fall_phase rand i d r f (n - 255) (by omega)]
  · rw [cycle_closes]

/-- Witness for C2 at a concrete random stream and concrete step counts. -/
theorem C2_cycle_witness :
    (stepN (fun _ a _ => a) 7 (mkFirefly 0 0 0 0)).brightness = 7 ∧
    (stepN (fun _ a _ => a) 300 (mkFirefly 0 0 0 0)).brightness = 210 ∧
    (stepN (fun _ a _ => a) 509 (mkFirefly 0 0 0 0)).rngCount = 0 ∧
    (stepN (fun _ a _ => a) 510 (mkFirefly 0 0 0 0)).rngCount = 3 := by
  have h := C2_cycle (fun _ a _ => a) 0 0 0 0
  exact ⟨(h.1 7 (by norm_num)).1, by
      have := (h.2.2.1 300 (by norm_num) (by norm_num)).1
      omega,
    h.2.2.2.2.1 509 le_rfl, h.2.2.2.2.2⟩

/-! ### Full characterization of one step, effects included -/

/-- A convenient fixed random stream: always returns the range minimum. -/
def randMin : ℕ → ℤ → ℤ → ℤ := fun _ a _ => a

/-- A concrete unit one step before the falling → rising transition
(slot 0, delay fields 2, 5, 9, brightness 1, falling). -/
def atBottom : FireflyState :=
  { mkFirefly 0 2 5 9 with brightness := 1, rising := false }

theorem runStep_eq_rising_mid (rand : ℕ → ℤ → ℤ → ℤ) (s : FireflyState)
    (h : s.rising = true) (h2 : s.brightness + 1 ≠ 255) :
    runStep rand s =
      ({ s with brightness := s.brightness + 1 },
       { write := if s.dark_delay % 2 == 0 then
            some (s.number, p_pyralis_brightness (((s.brightness + 1) % 256).toNat))
          else none,
         flush := s.dark_delay % 2 == 0, rolled := false,
         delays := [Delay.micros s.rising_delay] }) := by
  have hb : ((s.brightness + 1 : ℤ) == 255) = false := beq_eq_false_iff_ne.mpr h2
  simp [runStep, h, hb]

theorem runStep_eq_rising_top (rand : ℕ → ℤ → ℤ → ℤ) (s : FireflyState)
    (h : s.rising = true) (h2 : s.brightness + 1 = 255) :
    runStep rand s =
      ({ s with brightness := 255, rising := false },
       { write := if s.dark_delay % 2 == 0 then
            some (s.number, p_pyralis_brightness (((s.brightness + 1) % 256).toNat))
          else none,
         flush := s.dark_delay % 2 == 0, rolled := false,
         delays := [Delay.micros s.falling_delay] }) := by
  simp [runStep, h, h2]

theorem runStep_eq_falling_mid (rand : ℕ → ℤ → ℤ → ℤ) (s : FireflyState)
    (h : s.rising = false) (h2 : s.brightness - 1 ≠ 0) :
    runStep rand s =
      ({ s with brightness := s.brightness - 1 },
       { write := if s.dark_delay % 2 == 0 then
            some (s.number, p_pyralis_brightness (((s.brightness - 1) % 256).toNat))
          else none,
         flush := s.dark_delay % 2 == 0, rolled := false,
         delays := [Delay.micros s.falling_delay] }) := by
  have hb : ((s.brightness - 1 : ℤ) == 0) = false := beq_eq_false_iff_ne.mpr h2
  simp [runStep, h, hb]

theorem runStep_eq_falling_bottom (rand : ℕ → ℤ → ℤ → ℤ) (s : FireflyState)
    (h : s.rising = false) (h2 : s.brightness - 1 = 0) :
    runStep rand s =
      (roll rand { s with brightness := 0, rising := true },
       { write := if s.dark_delay % 2 == 0 then
            some (s.number, p_pyralis_brightness (((s.brightness - 1) % 256).toNat))
          else none,
         flush := s.dark_delay % 2 == 0, rolled := true,
         delays := [Delay.ms (rand s.rngCount 4000 7000),
                    Delay.micros (rand (s.rngCount + 1) 1000 1300)] }) := by
  simp [runStep, roll, h, h2]

/-- C3 counterexample: at the explicit state brightness = 255 with
rising = true (delays 2, 5, 9, slot 0, the minimum-returning random
stream), one step actually drives brightness to 256, leaves rising true,
and suspends for the RISING delay — not the behavior the claim states. -/
theorem C3_counterexample :
    (runStep randMin { mkFirefly 0 2 5 9 with brightness := 255 }).1.brightness = 256 ∧
    (runStep randMin { mkFirefly 0 2 5 9 with brightness := 255 }).1.rising = true ∧
    (runStep randMin { mkFirefly 0 2 5 9 with brightness := 255 }).2.delays =
      [Delay.micros 5] ∧
    ¬ ((runStep randMin { mkFirefly 0 2 5 9 with brightness := 255 }).1.brightness = 255 ∧
       (runStep randMin { mkFirefly 0 2 5 9 with brightness := 255 }).1.rising = false ∧
       (runStep randMin { mkFirefly 0 2 5 9 with brightness := 255 }).2.delays =
         [Delay.micros 9]) := by
  refine ⟨?_, ?_, ?_, ?_⟩ <;> decide

/-- C3 (amended): a single activation step from brightness = 254 with
rising = true — the step at which brightness reaches the 255 boundary —
leaves brightness at 255, flips rising to false, performs no re-roll, and
suspends the unit for `falling_delay`.  (The state brightness = 255 with
rising still true named by the original claim is never produced by the
code: the flip happens within the same step that reaches 255.) -/
theorem C3_amended_top_step (rand : ℕ → ℤ → ℤ → ℤ) (s : FireflyState)
    (h : s.rising = true) (hb : s.brightness = 254) :
    (runStep rand s).1.brightness = 255 ∧
    (runStep rand s).1.rising = false ∧
    (runStep rand s).2.rolled = false ∧
    (runStep rand s).2.delays = [Delay.micros s.falling_delay] := by
  rw [runStep_eq_rising_top rand s h (by omega)]
  exact ⟨rfl, rfl, rfl, rfl⟩

/-- Witness for C3 (amended) at a concrete state. -/
theorem C3_amended_top_step_witness :
    (runStep randMin { mkFirefly 0 2 5 9 with brightness := 254 }).1.brightness = 255 ∧
    (runStep randMin { mkFirefly 0 2 5 9 with brightness := 254 }).1.rising = false ∧
    (runStep randMin { mkFirefly 0 2 5 9 with brightness := 254 }).2.rolled = false ∧
    (runStep randMin { mkFirefly 0 2 5 9 with brightness := 254 }).2.delays =
      [Delay.micros 9] :=
  C3_amended_top_step randMin { mkFirefly 0 2 5 9 with brightness := 254 } rfl rfl

/-- C4 counterexample: a non-suspended step whose unit holds an odd
`dark_delay` (here the freshly constructed unit with indeterminate
dark delay 1) performs no slot write and no flush, refuting "every
non-suspended activation step ... writes ... and requests a flush". -/
theorem C4_counterexample :
    (runStep randMin (mkFirefly 0 1 5 9)).2.write = none ∧
    (runStep randMin (mkFirefly 0 1 5 9)).2.flush = false := by
  exact ⟨by decide, by decide⟩

/-- The write and flush effect of a step, uniform over all four phase
configurations: gated solely on the parity of the (pre-roll) dark delay,
and the written color is the color model at the newly-advanced
brightness, narrowed to a byte. -/
theorem runStep_write_flush (rand : ℕ → ℤ → ℤ → ℤ) (s : FireflyState) :
    (runStep rand s).2.write =
      (if s.dark_delay % 2 == 0 then
        some (s.number, p_pyralis_brightness
          (((if s.rising then s.brightness + 1 else s.brightness - 1) % 256).toNat))
       else none) ∧
    (runStep rand s).2.flush = (s.dark_delay % 2 == 0) := by
  cases hr : s.rising
  · by_cases hb : s.brightness - 1 = 0
    · rw [runStep_eq_falling_bottom rand s hr hb]; simp
    · rw [runStep_eq_falling_mid rand s hr hb]; simp
  · by_cases hb : s.brightness + 1 = 255
    · rw [runStep_eq_rising_top rand s hr hb]; simp
    · rw [runStep_eq_rising_mid rand s hr hb]; simp

/-- C4 (amended): a non-suspended activation step writes the Color Model
output for the newly-advanced brightness to the unit's own output slot
and requests a flush exactly when the unit's `dark_delay` is even; when
it is odd, no write and no flush occur.  In particular, one step from
brightness = 0 with rising = true and even `dark_delay` leaves
brightness = 1 with `p_pyralis_brightness 1` written to the unit's slot
and the unit suspended for `rising_delay`. -/
theorem C4_amended_parity_gated_write (rand : ℕ → ℤ → ℤ → ℤ) (s : FireflyState) :
    (s.dark_delay % 2 = 0 →
      (runStep rand s).2.write =
        some (s.number, p_pyralis_brightness
          (((if s.rising then s.brightness + 1 else s.brightness - 1) % 256).toNat)) ∧
      (runStep rand s).2.flush = true) ∧
    (s.dark_delay % 2 ≠ 0 →
      (runStep rand s).2.write = none ∧ (runStep rand s).2.flush = false) ∧
    (s.brightness = 0 → s.rising = true → s.dark_delay % 2 = 0 →
      (runStep rand s).1.brightness = 1 ∧
      (runStep rand s).2.write = some (s.number, p_pyralis_brightness 1) ∧
      (runStep rand s).2.delays = [Delay.micros s.rising_delay]) := by
  obtain ⟨hw, hf⟩ := runStep_write_flush rand s
  refine ⟨?_, ?_, ?_⟩
  · intro hd
    have hd' : (s.dark_delay % 2 == 0) = true := beq_iff_eq.mpr hd
    rw [hw, hf, hd']
    exact ⟨rfl, rfl⟩
  · intro hd
    have hd' : (s.dark_delay % 2 == 0) = false := beq_eq_false_iff_ne.mpr hd
    rw [hw, hf, hd']
    exact ⟨rfl, rfl⟩
  · intro hb0 hr hd
    have hne : s.brightness + 1 ≠ 255 := by omega
    rw [runStep_eq_rising_mid rand s hr hne]
    have hd' : (s.dark_delay % 2 == 0) = true := beq_iff_eq.mpr hd
    simp [hd', hb0, hr]

/-- Witness for C4 (amended) at the constructed unit with even dark delay. -/
theorem C4_amended_parity_gated_write_witness :
    (runStep randMin (mkFirefly 0 2 5 9)).1.brightness = 1 ∧
    (runStep randMin (mkFirefly 0 2 5 9)).2.write =
      some (0, p_pyralis_brightness 1) ∧
    (runStep randMin (mkFirefly 0 2 5 9)).2.delays = [Delay.micros 5] := by
  have h := (C4_amended_parity_gated_write randMin (mkFirefly 0 2 5 9)).2.2
    rfl rfl (by decide)
  exact h

/-- C5: activating a unit strictly before its suspension deadline changes
none of its fields, performs no slot write, no flush, and no re-roll, and
leaves any output surface untouched. -/
theorem C5_suspended_noop (rand : ℕ → ℤ → ℤ → ℤ) (now : ℤ) (u : UnitState)
    (srf : Surface) (h : now < u.resumeAt) :
    activate rand now u = (u, noEff) ∧ applyEff srf noEff = srf := by
  constructor
  · simp [activate, h]
  · rfl

/-- Witness for C5 at a concrete suspended unit. -/
theorem C5_suspended_noop_witness :
    activate randMin 0 ⟨mkFirefly 0 2 5 9, 10⟩ = (⟨mkFirefly 0 2 5 9, 10⟩, noEff) ∧
    applyEff ⟨fun _ => 0, fun _ => 0⟩ noEff = ⟨fun _ => 0, fun _ => 0⟩ :=
  C5_suspended_noop randMin 0 ⟨mkFirefly 0 2 5 9, 10⟩ ⟨fun _ => 0, fun _ => 0⟩
    (by norm_num)

/-- C6: every non-suspended step ends with a `COROUTINE_DELAY_MICROS`
suspension for `rising_delay` if the unit leaves the step rising, else for
`falling_delay`; at the re-roll step the dark-phase `COROUTINE_DELAY`
composes with it, the new resume deadline sits past the total of all
requested delays, and (for non-negative delay values) not before either
individual deadline. -/
theorem C6_composed_suspension (rand : ℕ → ℤ → ℤ → ℤ) (s : FireflyState) :
    ((runStep rand s).2.delays.getLast? =
      some (Delay.micros (if (runStep rand s).1.rising then
        (runStep rand s).1.rising_delay else (runStep rand s).1.falling_delay))) ∧
    ((runStep rand s).2.rolled = true →
      (runStep rand s).2.delays =
        [Delay.ms (runStep rand s).1.dark_delay,
         Delay.micros (runStep rand s).1.rising_delay]) ∧
    (∀ (now : ℤ) (u : UnitState), u.fsm = s → ¬ now < u.resumeAt →
      (activate rand now u).1.resumeAt = now + totalMicros (runStep rand s).2.delays) ∧
    ((runStep rand s).2.rolled = true →
      0 ≤ (runStep rand s).1.dark_delay → 0 ≤ (runStep rand s).1.rising_delay →
      1000 * (runStep rand s).1.dark_delay ≤ totalMicros (runStep rand s).2.delays ∧
      (runStep rand s).1.rising_delay ≤ totalMicros (runStep rand s).2.delays) := by
  refine ⟨?_, ?_, fun now u hu hnow => by simp [activate, hnow, hu], ?_⟩ <;>
  · cases hr : s.rising
    · by_cases hb : s.brightness - 1 = 0
      · rw [runStep_eq_falling_bottom rand s hr hb]
        simp [roll, totalMicros, delayMicros]
        try omega
      · rw [runStep_eq_falling_mid rand s hr hb]; simp [hr]
    · by_cases hb : s.brightness + 1 = 255
      · rw [runStep_eq_rising_top rand s hr hb]; simp
      · rw [runStep_eq_rising_mid rand s hr hb]; simp [hr]

/-- Witness for C6 at a concrete re-roll step. -/
theorem C6_composed_suspension_witness :
    (runStep randMin atBottom).2.delays = [Delay.ms 4000, Delay.micros 1000] ∧
    (activate randMin 0 ⟨atBottom, 0⟩).1.resumeAt =
      0 + totalMicros (runStep randMin atBottom).2.delays ∧
    1000 * 4000 ≤ totalMicros (runStep randMin atBottom).2.delays := by
  have h := C6_composed_suspension randMin atBottom
  refine ⟨h.2.1 (by decide), h.2.2.1 0 _ rfl (by norm_num), ?_⟩
  have h4 := (h.2.2.2 (by decide) (by decide) (by decide)).1
  have hd : (runStep randMin atBottom).1.dark_delay = 4000 := by decide
  rw [hd] at h4
  exact h4

/-- C7: `roll` makes exactly three calls to the random source (the call
counter advances by three); whenever the source respects its half-open
range contract, the re-rolled delays land in [4000,7000), [1000,1300) and
[1500,2000); and a step re-rolls exactly when the unit is falling at
brightness 1, i.e. at the falling → rising transition where brightness
reaches 0. -/
theorem C7_reroll_ranges (rand : ℕ → ℤ → ℤ → ℤ) (s : FireflyState) :
    (roll rand s).rngCount = s.rngCount + 3 ∧
    ((∀ (k : ℕ) (a b : ℤ), a < b → a ≤ rand k a b ∧ rand k a b < b) →
      (4000 ≤ (roll rand s).dark_delay ∧ (roll rand s).dark_delay < 7000) ∧
      (1000 ≤ (roll rand s).rising_delay ∧ (roll rand s).rising_delay < 1300) ∧
      (1500 ≤ (roll rand s).falling_delay ∧ (roll rand s).falling_delay < 2000)) ∧
    ((runStep rand s).2.rolled = true ↔ s.rising = false ∧ s.brightness = 1) := by
  refine ⟨rfl, ?_, ?_⟩
  · intro h
    exact ⟨h s.rngCount 4000 7000 (by norm_num),
      h (s.rngCount + 1) 1000 1300 (by norm_num),
      h (s.rngCount + 2) 1500 2000 (by norm_num)⟩
  · cases hr : s.rising
    · by_cases hb : s.brightness - 1 = 0
      · rw [runStep_eq_falling_bottom rand s hr hb]
        simp
        omega
      · rw [runStep_eq_falling_mid rand s hr hb]
        simp
        omega
    · by_cases hb : s.brightness + 1 = 255
      · rw [runStep_eq_rising_top rand s hr hb]; simp
      · rw [runStep_eq_rising_mid rand s hr hb]; simp

/-- Witness for C7 with the minimum-returning random stream. -/
theorem C7_reroll_ranges_witness :
    (roll randMin (mkFirefly 0 2 5 9)).rngCount = 3 ∧
    4000 ≤ (roll randMin (mkFirefly 0 2 5 9)).dark_delay ∧
    (runStep randMin atBottom).2.rolled = true := by
  have h := C7_reroll_ranges randMin (mkFirefly 0 2 5 9)
  have h2 := C7_reroll_ranges randMin atBottom
  exact ⟨h.1, (h.2.1 (fun _ a b hab => ⟨le_rfl, hab⟩)).1.1,
    h2.2.2.mpr ⟨rfl, by decide⟩⟩

/-! ### Color model: channel packing and extraction -/

theorem pack_channels (cr cg cb : ℕ) (hG : cg ≤ 255) (hB : cb ≤ 255) :
    (cr * 2 ^ 16) ||| (cg * 2 ^ 8) ||| cb =
      cr * 2 ^ 16 + cg * 2 ^ 8 + cb := by
  rw [Nat.lor_assoc]
  have h1 : cg * 2 ^ 8 ||| cb = cg * 2 ^ 8 + cb := by
    rw [Nat.mul_comm]
    exact (Nat.mul_add_lt_is_or (by omega) cg).symm
  rw [h1]
  have h2 : cr * 2 ^ 16 ||| (cg * 2 ^ 8 + cb) = cr * 2 ^ 16 + (cg * 2 ^ 8 + cb) := by
    rw [Nat.mul_comm]
    exact (Nat.mul_add_lt_is_or (by omega) cr).symm
  rw [h2]; ring

theorem channel_bounds (b : ℕ) (w : ℚ) (hb : b ≤ 255) (h0 : 0 ≤ w) (h1 : w ≤ 1) :
    ctrunc ((b : ℚ) * w) = ⌊(b : ℚ) * w⌋ ∧
    0 ≤ ⌊(b : ℚ) * w⌋ ∧ ⌊(b : ℚ) * w⌋ ≤ 255 := by
  have hq0 : 0 ≤ (b : ℚ) * w := mul_nonneg (by positivity) h0
  refine ⟨by simp [ctrunc, hq0], Int.floor_nonneg.mpr hq0, ?_⟩
  have hq : (b : ℚ) * w ≤ 255 := by
    calc (b : ℚ) * w ≤ (b : ℚ) * 1 := by
          exact mul_le_mul_of_nonneg_left h1 (by positivity)
      _ = (b : ℚ) := mul_one _
      _ ≤ 255 := by exact_mod_cast hb
  have hf := Int.floor_le_floor hq
  simpa using hf

theorem u32_small (n : ℤ) (h0 : 0 ≤ n) (h1 : n ≤ 255) : u32 n = n.toNat := by
  have h : n % (2 : ℤ) ^ 32 = n := Int.emod_eq_of_lt h0 (by omega)
  unfold u32
  rw [h]

/-- The packed value of `compute_rgb` and its per-position channel
extraction, for in-range brightness and weights. -/
theorem compute_rgb_spec (b : ℕ) (wr wg wb : ℚ) (hb : b ≤ 255)
    (hr0 : 0 ≤ wr) (hr1 : wr ≤ 1) (hg0 : 0 ≤ wg) (hg1 : wg ≤ 1)
    (hb0 : 0 ≤ wb) (hb1 : wb ≤ 1) :
    compute_rgb b wr wg wb =
      (⌊(b : ℚ) * wr⌋.toNat) * 2 ^ 16 + (⌊(b : ℚ) * wg⌋.toNat) * 2 ^ 8 +
        ⌊(b : ℚ) * wb⌋.toNat ∧
    compute_rgb b wr wg wb / 2 ^ 16 = ⌊(b : ℚ) * wr⌋.toNat ∧
    compute_rgb b wr wg wb / 2 ^ 8 % 2 ^ 8 = ⌊(b : ℚ) * wg⌋.toNat ∧
    compute_rgb b wr wg wb % 2 ^ 8 = ⌊(b : ℚ) * wb⌋.toNat := by
  obtain ⟨er, lr, ur⟩ := channel_bounds b wr hb hr0 hr1
  obtain ⟨eg, lg, ug⟩ := channel_bounds b wg hb hg0 hg1
  obtain ⟨eb, lb, ub⟩ := channel_bounds b wb hb hb0 hb1
  have hRn : ⌊(b : ℚ) * wr⌋.toNat ≤ 255 := by omega
  have hGn : ⌊(b : ℚ) * wg⌋.toNat ≤ 255 := by omega
  have hBn : ⌊(b : ℚ) * wb⌋.toNat ≤ 255 := by omega
  have key : compute_rgb b wr wg wb =
      (⌊(b : ℚ) * wr⌋.toNat) * 2 ^ 16 + (⌊(b : ℚ) * wg⌋.toNat) * 2 ^ 8 +
        ⌊(b : ℚ) * wb⌋.toNat := by
    show ((u32 (ctrunc ((b : ℚ) * wr)) <<< 16) % 2 ^ 32) |||
        ((u32 (ctrunc ((b : ℚ) * wg)) <<< 8) % 2 ^ 32) |||
        u32 (ctrunc ((b : ℚ) * wb)) = _
    rw [er, eg, eb, u32_small _ lr ur, u32_small _ lg ug, u32_small _ lb ub,
      Nat.shiftLeft_eq, Nat.shiftLeft_eq,
      Nat.mod_eq_of_lt (by omega), Nat.mod_eq_of_lt (by omega)]
    exact pack_channels _ _ _ hGn hBn
  refine ⟨key, ?_, ?_, ?_⟩ <;> rw [key] <;> omega

/-- C8: for brightness in [0,255] and weights each in [0.0,1.0],
`compute_rgb` packs channel values floor(brightness × weight) as
R·2¹⁶ + G·2⁸ + B (i.e. `R<<16 | G<<8 | B`), each channel recoverable by
position; in particular the Photinus pyralis preset at brightness 255
yields R = 200, G = 255, B = 0. -/
theorem C8_color_model (b : ℕ) (wr wg wb : ℚ) (hb : b ≤ 255)
    (hr0 : 0 ≤ wr) (hr1 : wr ≤ 1) (hg0 : 0 ≤ wg) (hg1 : wg ≤ 1)
    (hb0 : 0 ≤ wb) (hb1 : wb ≤ 1) :
    (compute_rgb b wr wg wb =
      (⌊(b : ℚ) * wr⌋.toNat) * 2 ^ 16 + (⌊(b : ℚ) * wg⌋.toNat) * 2 ^ 8 +
        ⌊(b : ℚ) * wb⌋.toNat ∧
     compute_rgb b wr wg wb / 2 ^ 16 = ⌊(b : ℚ) * wr⌋.toNat ∧
     compute_rgb b wr wg wb / 2 ^ 8 % 2 ^ 8 = ⌊(b : ℚ) * wg⌋.toNat ∧
     compute_rgb b wr wg wb % 2 ^ 8 = ⌊(b : ℚ) * wb⌋.toNat) ∧
    p_pyralis_brightness 255 / 2 ^ 16 = 200 ∧
    p_pyralis_brightness 255 / 2 ^ 8 % 2 ^ 8 = 255 ∧
    p_pyralis_brightness 255 % 2 ^ 8 = 0 := by
  have hpp := compute_rgb_spec 255 0.788 1.0 0.0 (by norm_num) (by norm_num)
    (by norm_num) (by norm_num) (by norm_num) (by norm_num) (by norm_num)
  have f1 : ⌊(255 : ℚ) * 0.788⌋ = 200 := by norm_num
  have f2 : ⌊(255 : ℚ) * 1.0⌋ = 255 := by norm_num
  have f3 : ⌊(255 : ℚ) * 0.0⌋ = 0 := by norm_num
  refine ⟨compute_rgb_spec b wr wg wb hb hr0 hr1 hg0 hg1 hb0 hb1, ?_, ?_, ?_⟩
  · show compute_rgb 255 0.788 1.0 0.0 / 2 ^ 16 = 200
    rw [hpp.2.1]
    norm_num [f1]
    decide
  · show compute_rgb 255 0.788 1.0 0.0 / 2 ^ 8 % 2 ^ 8 = 255
    rw [hpp.2.2.1]
    norm_num [f2]
    decide
  · show compute_rgb 255 0.788 1.0 0.0 % 2 ^ 8 = 0
    rw [hpp.2.2.2]
    norm_num [f3]

/-- Witness for C8 at the species preset and full brightness. -/
theorem C8_color_model_witness :
    compute_rgb 255 0.788 1.0 0.0 =
      (⌊((255 : ℕ) : ℚ) * 0.788⌋.toNat) * 2 ^ 16 +
        (⌊((255 : ℕ) : ℚ) * 1.0⌋.toNat) * 2 ^ 8 +
        ⌊((255 : ℕ) : ℚ) * 0.0⌋.toNat :=
  (C8_color_model 255 0.788 1.0 0.0 (by norm_num) (by norm_num) (by norm_num)
    (by norm_num) (by norm_num) (by norm_num) (by norm_num)).1.1

/-! ### Output surface: slot ownership and flush -/

theorem applyEff_buffer_other (srf : Surface) (e : StepEff) (i j : ℕ)
    (hw : e.write = none ∨ ∃ c, e.write = some (i, c)) (hj : j ≠ i) :
    (applyEff srf e).buffer j = srf.buffer j := by
  unfold applyEff
  rcases hw with hw | ⟨c, hw⟩ <;> rw [hw] <;>
    by_cases hfl : e.flush <;> simp [hfl, flushSurface, setSlotColor, hj]

theorem applyEff_flush_pushes (srf : Surface) (e : StepEff) (hfl : e.flush = true) :
    (applyEff srf e).hardware = (applyEff srf e).buffer := by
  unfold applyEff
  cases hw : e.write <;> simp [hfl, flushSurface]

/-- C9: a step of a unit writes only the slot equal to its own `number`
(so with units bound to distinct indices, no unit ever touches another's
slot): the step's write either does not happen or targets slot `number`;
applying the step's effects leaves every other slot of the shared buffer
unchanged; `flush` pushes every slot's current color to hardware, and a
step that requests a flush pushes the whole updated buffer. -/
theorem C9_slot_ownership (rand : ℕ → ℤ → ℤ → ℤ) (s : FireflyState)
    (srf : Surface) (j : ℕ) (hj : j ≠ s.number) :
    ((runStep rand s).2.write = none ∨
      ∃ c, (runStep rand s).2.write = some (s.number, c)) ∧
    (applyEff srf (runStep rand s).2).buffer j = srf.buffer j ∧
    (flushSurface srf).hardware = srf.buffer ∧
    ((runStep rand s).2.flush = true →
      (applyEff srf (runStep rand s).2).hardware =
        (applyEff srf (runStep rand s).2).buffer) := by
  have hw : (runStep rand s).2.write = none ∨
      ∃ c, (runStep rand s).2.write = some (s.number, c) := by
    rw [(runStep_write_flush rand s).1]
    by_cases hd : (s.dark_delay % 2 == 0) = true
    · rw [if_pos hd]; right; exact ⟨_, rfl⟩
    · rw [if_neg hd]; left; rfl
  exact ⟨hw, applyEff_buffer_other srf _ s.number j hw hj, rfl,
    applyEff_flush_pushes srf _⟩

/-- Witness for C9: a unit bound to slot 1 steps; slot 0 of the surface
is untouched and flushing pushes the buffer. -/
theorem C9_slot_ownership_witness :
    (applyEff ⟨fun _ => 7, fun _ => 7⟩ (runStep randMin (mkFirefly 1 2 5 9)).2).buffer 0
      = 7 ∧
    (flushSurface ⟨fun _ => 7, fun _ => 7⟩).hardware = fun _ => 7 := by
  have h := C9_slot_ownership randMin (mkFirefly 1 2 5 9) ⟨fun _ => 7, fun _ => 7⟩ 0
    (by norm_num [mkFirefly])
  exact ⟨h.2.1, h.2.2.1⟩

/-! ### First-cycle reads of never-initialized fields -/

/-- C10: the constructor initializes only `number`, `brightness` and
`rising`, passing the three delay fields through unchanged from whatever
indeterminate values they held; no re-roll touches them during the first
509 steps (the first `roll` runs only at step 510, the first
falling → rising transition, after a full rise and fall); yet already the
very first activation reads `dark_delay` (its parity decides the
write/flush) and `rising_delay` (it decides the suspension length), as the
concrete instances show: changing only those junk values changes the first
step's flush decision and suspension. -/
theorem C10_uninitialized_first_reads (rand : ℕ → ℤ → ℤ → ℤ) (i : ℕ) (d r f : ℤ) :
    ((mkFirefly i d r f).number = i ∧ (mkFirefly i d r f).brightness = 0 ∧
     (mkFirefly i d r f).rising = true ∧ (mkFirefly i d r f).dark_delay = d ∧
     (mkFirefly i d r f).rising_delay = r ∧ (mkFirefly i d r f).falling_delay = f) ∧
    (∀ n, n ≤ 509 →
      (stepN rand n (mkFirefly i d r f)).dark_delay = d ∧
      (stepN rand n (mkFirefly i d r f)).rising_delay = r ∧
      (stepN rand n (mkFirefly i d r f)).falling_delay = f ∧
      (stepN rand n (mkFirefly i d r f)).rngCount = 0) ∧
    (stepN rand 510 (mkFirefly i d r f)).rngCount = 3 ∧
    ((runStep randMin (mkFirefly 0 0 5 9)).2.flush = true ∧
     (runStep randMin (mkFirefly 0 1 5 9)).2.flush = false ∧
     (runStep randMin (mkFirefly 0 0 5 9)).2.delays = [Delay.micros 5] ∧
     (runStep randMin (mkFirefly 0 0 6 9)).2.delays = [Delay.micros 6]) := by
  refine ⟨⟨rfl, rfl, rfl, rfl, rfl, rfl⟩, ?_, ?_, by decide, by decide, by decide,
    by decide⟩
  · intro n hn
    rcases Nat.lt_or_ge n 256 with h | h
    · rw [rise_phase rand i d r f n (by omega)]
      exact ⟨rfl, rfl, rfl, rfl⟩
    · have hn' : n = 255 + (n - 255) := by omega
      rw [hn', fall_phase rand i d r f (n - 255) (by omega)]
      exact ⟨rfl, rfl, rfl, rfl⟩
  · rw [cycle_closes]

/-- Witness for C10 deep inside the first fall, before any roll. -/
theorem C10_uninitialized_first_reads_witness :
    (stepN randMin 400 (mkFirefly 3 11 12 13)).dark_delay = 11 ∧
    (stepN randMin 400 (mkFirefly 3 11 12 13)).rngCount = 0 ∧
    (stepN randMin 510 (mkFirefly 3 11 12 13)).rngCount = 3 := by
  have h := C10_uninitialized_first_reads randMin 3 11 12 13
  exact ⟨(h.2.1 400 (by norm_num)).1, (h.2.1 400 (by norm_num)).2.2.2, h.2.2.1⟩

end FireflyJar
